import Mathlib

/-!
# Verification of the commodity-prediction core

Shallow embedding of the core of the `commodity_prediction` repository:

* `src/src/metric.py` — `daily_spearman_sharpe`
* `src/src/models/ridge_autoreg.py` — `_build_lag_feature_frame`,
  `train_per_target_ridge`, `RidgeAutoRegModel.predict_row`, `predict_wide`
* `src/src/infer_ridge_autoreg.py` — `_load_lag_series_for_date`, `main`
* `src/src/train_ridge_autoreg.py` — `main` (persistence boundary)

Float values are modelled as `Option ℚ` cells: `none` stands for a missing or
non-finite entry (NaN/inf, as tested by `np.isfinite` / `pd.notna`), `some q`
for a finite numeric value.  Real-closed quantities produced by square roots
(Spearman correlations, standard deviations) live in `ℝ`; every branching
decision of the source is carried out on exact rational data first.
-/

namespace CommodityPred

/-- A pandas `DataFrame` indexed by integer `date_id` with named target
columns.  `cell d c` is the table entry at row `d`, column `c`; `none` models
a NaN/non-finite float.  Per the data model, a `DateId` appears at most once
in `dates`. -/
structure Table where
  dates : List ℤ
  cols : List String
  cell : ℤ → String → Option ℚ

/-- Index intersection `true_df.index.intersection(pred_df.index)` (order of
the left operand, unique indices assumed). -/
def commonIndex (t p : Table) : List ℤ :=
  t.dates.filter (fun d => d ∈ p.dates)

/-- Column intersection `true_df.columns.intersection(pred_df.columns)`. -/
def commonCols (t p : Table) : List String :=
  t.cols.filter (fun c => c ∈ p.cols)

/-- One row of a table restricted to the given columns, in column order:
`df.loc[date_id, common_columns].to_numpy()`. -/
def rowVec (tb : Table) (d : ℤ) (cols : List String) : List (Option ℚ) :=
  cols.map (fun c => tb.cell d c)

/-- The finite-pair mask `np.isfinite(t) & np.isfinite(p)` applied to a pair
of rows: keep exactly the positions where both sides are finite, returning
the two masked vectors `t[mask]`, `p[mask]`. -/
def maskedPair (t p : Table) (d : ℤ) (cols : List String) : List ℚ × List ℚ :=
  (((rowVec t d cols).zip (rowVec p d cols)).filterMap
    (fun ab =>
      match ab with
      | (some x, some y) => some (x, y)
      | _ => none)).unzip

/-- Arithmetic mean of a rational list (0 on the empty list). -/
def qmean (xs : List ℚ) : ℚ :=
  if xs.length = 0 then 0 else xs.sum / xs.length

/-- Dot product of two rational lists. -/
def dotQ (xs ys : List ℚ) : ℚ :=
  (xs.zipWith (fun a b => a * b) ys).sum

/-- Mid-rank (average-rank, the tie convention of `scipy.stats.rankdata` used
by `spearmanr`) of the value `x` within the list `xs`: the count of strictly
smaller entries plus half of `(ties + 1)`. -/
def midrank (xs : List ℚ) (x : ℚ) : ℚ :=
  (xs.countP (fun a => decide (a < x)) : ℚ) + ((xs.count x : ℚ) + 1) / 2

/-- The mid-rank vector of a list. -/
def midranks (xs : List ℚ) : List ℚ :=
  xs.map (midrank xs)

/-- Exact representation of `scipy.stats.spearmanr(xs, ys)[0]`: Pearson
correlation of the mid-rank vectors.  The value is
`sxy / sqrt(sxx * syy)`; it is NaN (here `none`) exactly when one of the rank
vectors is constant (`sxx = 0` or `syy = 0`).  Otherwise the result is
`some (sxy, sxx * syy)`, standing for the real number
`sxy / Real.sqrt (sxx * syy)`. -/
def spearmanRep (xs ys : List ℚ) : Option (ℚ × ℚ) :=
  let a := midranks xs
  let b := midranks ys
  let am := qmean a
  let bm := qmean b
  let ac := a.map (fun v => v - am)
  let bc := b.map (fun v => v - bm)
  let sxy := dotQ ac bc
  let sxx := dotQ ac ac
  let syy := dotQ bc bc
  if sxx = 0 ∨ syy = 0 then none else some (sxy, sxx * syy)

/-- The contribution of one common date to `daily_values`: `none` (outer)
when the date has fewer than 3 finite pairs and is skipped entirely;
`some r` when a value `r` is appended, where `r` itself is `none` for a NaN
correlation.  Mirrors the loop body of `daily_spearman_sharpe`. -/
def dailyEntry (t p : Table) (cols : List String) (d : ℤ) : Option (Option (ℚ × ℚ)) :=
  let mp := maskedPair t p d cols
  if 3 ≤ mp.1.length then some (spearmanRep mp.1 mp.2) else none

/-- The `daily_values` list of `daily_spearman_sharpe`, in exact
representation: one entry per common date having at least 3 finite pairs,
with `none` entries for NaN correlations. -/
def dailyReps (t p : Table) : List (Option (ℚ × ℚ)) :=
  (commonIndex t p).filterMap (dailyEntry t p (commonCols t p))

/-- Values actually present in a list of optional entries (the non-NaN
entries, as selected by numpy nan-aware aggregation). -/
def somes {α : Type} (xs : List (Option α)) : List α :=
  xs.filterMap id

/-- Real value of a represented Spearman correlation. -/
noncomputable def repVal (nd : ℚ × ℚ) : ℝ :=
  (nd.1 : ℝ) / Real.sqrt (nd.2 : ℝ)

/-- `daily_values` as a list of optional reals (`none` = NaN). -/
noncomputable def dailyVals (t p : Table) : List (Option ℝ) :=
  (dailyReps t p).map (Option.map repVal)

/-- `np.nanmean`: mean over the non-NaN entries, NaN (`none`) when there are
none. -/
noncomputable def nanmeanO (xs : List (Option ℝ)) : Option ℝ :=
  let g := somes xs
  if g.length = 0 then none else some (g.sum / (g.length : ℝ))

/-- `np.nanstd(..., ddof=1)`: sample standard deviation over the non-NaN
entries, NaN (`none`) when fewer than 2 of them exist (0/0 in numpy). -/
noncomputable def nanstdO (xs : List (Option ℝ)) : Option ℝ :=
  let g := somes xs
  if g.length ≤ 1 then none
  else
    some (Real.sqrt
      ((g.map (fun x => (x - g.sum / (g.length : ℝ)) ^ 2)).sum / ((g.length : ℝ) - 1)))

/-- Embedding of `daily_spearman_sharpe` (`src/src/metric.py`).  The result
is `none` exactly where the source returns `float("nan")`; otherwise
`some (mean / std)` of the per-date correlations.  The function is total:
the source never raises on any input pair of tables. -/
noncomputable def dailySpearmanSharpe (t p : Table) : Option ℝ :=
  if commonIndex t p = [] ∨ commonCols t p = [] then none
  else
    let dv := dailyVals t p
    if dv.length < 2 then none
    else
      match nanstdO dv with
      | none => none
      | some s =>
        if s = 0 then none
        else
          match nanmeanO dv with
          | none => none
          | some m => some (m / s)

/-- Combine a list of optional values into an optional list: `some` exactly
when every entry is present (the row-retention test of `dropna`). -/
def allSome {α : Type} : List (Option α) → Option (List α)
  | [] => some []
  | none :: _ => none
  | some a :: rest => (allSome rest).map (fun l => a :: l)

/-- One target's historical series: the `date_id`-indexed column
`labels_wide[target]`, in table row order, with `none` for NaN entries. -/
def seriesOf (labels : Table) (t : String) : List (ℤ × Option ℚ) :=
  labels.dates.map (fun d => (d, labels.cell d t))

/-- Embedding of `_build_lag_feature_frame`
(`src/src/models/ridge_autoreg.py`).  `series.shift(l)` is the pandas
positional shift: the feature at row position `i` is the series value at
position `i - l` (missing for `i < l`).  A row is retained exactly when all
lag features and the label are present (`dropna`); retained rows keep the
original row order.  Each output row is `(date, features, label)` with the
features listed in lag-list order. -/
def buildLagRow (s : List (ℤ × Option ℚ)) (lags : List ℕ) (i : ℕ) :
    Option (ℤ × List ℚ × ℚ) :=
  match s.getD i (0, none) with
  | (d, some y) =>
    (allSome (lags.map (fun l =>
      if l ≤ i then (s.map Prod.snd).getD (i - l) none else none))).map
      (fun fs => (d, fs, y))
  | (_, none) => none

/-- Embedding of `_build_lag_feature_frame`: one candidate row per position,
retained exactly when complete. -/
def buildLag (s : List (ℤ × Option ℚ)) (lags : List ℕ) : List (ℤ × List ℚ × ℚ) :=
  (List.range s.length).filterMap (buildLagRow s lags)

/-- Laplace expansion determinant of a square rational matrix given as a list
of rows.  Used only inside the modelled ridge solver. -/
def detL : List (List ℚ) → ℚ
  | [] => 1
  | r :: rest =>
    ((List.range r.length).map (fun j =>
      (-1 : ℚ) ^ j * r.getD j 0 * detL (rest.map (fun row => row.eraseIdx j)))).sum
termination_by m => m.length
decreasing_by simp [List.length_map]

/-- Replace column `i` of the matrix by the vector `b` (rows zipped with the
entries of `b`). -/
def replaceCol (A : List (List ℚ)) (i : ℕ) (b : List ℚ) : List (List ℚ) :=
  A.zipWith (fun row bi => row.set i bi) b

/-- Cramer-rule solver for a square linear system `A x = b`; returns the zero
vector when the determinant vanishes (unreachable for the SPD ridge normal
equations with positive regularization). -/
def solveLin (A : List (List ℚ)) (b : List ℚ) : List ℚ :=
  let d := detL A
  if d = 0 then b.map (fun _ => 0)
  else (List.range b.length).map (fun i => detL (replaceCol A i b) / d)

/-- Modelled from the spec: the solver of `sklearn.linear_model.Ridge`
(library code, not part of this repository) with `fit_intercept=True`,
"an ordinary ridge-regularized linear regression (closed-form or iterative
solve) with intercept" and a "seeded/deterministic solver, no randomized
initialization".  Centered closed form: solve
`(Xc^T Xc + alpha I) w = Xc^T yc` on the column-centered data, then
`intercept = mean y - mean x . w`.  `p` is the feature count (the lag-list
length).  Returns `(coefficients, intercept)`. -/
def ridgeFit (alpha : ℚ) (p : ℕ) (X : List (List ℚ)) (y : List ℚ) : List ℚ × ℚ :=
  let colsX := (List.range p).map (fun j => X.map (fun row => row.getD j 0))
  let xbar := colsX.map qmean
  let Xc := colsX.map (fun col => col.map (fun v => v - qmean col))
  let yc := y.map (fun v => v - qmean y)
  let A := Xc.mapIdx (fun i ci =>
    (Xc.mapIdx (fun j cj => dotQ ci cj + if i = j then alpha else 0)))
  let b := Xc.map (fun ci => dotQ ci yc)
  let w := solveLin A b
  (w, qmean y - dotQ xbar w)

/-- The `RidgeAutoRegModel` dataclass: target name, ordered lag list, and the
fitted linear model (coefficients and intercept of the sklearn `Ridge`). -/
structure RidgeAutoRegModel where
  target : String
  lags : List ℕ
  coef : List ℚ
  intercept : ℚ
deriving DecidableEq

/-- Modelled from the spec: `Ridge.predict` (sklearn library code, not part
of this repository) applied to a single feature row — the fitted linear map
`coef . features + intercept`. -/
def linPredict (m : RidgeAutoRegModel) (features : List ℚ) : ℚ :=
  dotQ m.coef features + m.intercept

/-- The feature vector built by `RidgeAutoRegModel.predict_row`:
`[lag_values_by_lag.get(l, 0.0) for l in self.lags]`. -/
def featureVec (m : RidgeAutoRegModel) (vals : List (ℕ × ℚ)) : List ℚ :=
  m.lags.map (fun l => (vals.lookup l).getD 0)

/-- Embedding of `RidgeAutoRegModel.predict_row`: assemble the per-lag
feature vector with 0.0 fallback and apply the fitted model. -/
def predictRow (m : RidgeAutoRegModel) (vals : List (ℕ × ℚ)) : ℚ :=
  linPredict m (featureVec m vals)

/-- Embedding of `train_per_target_ridge`
(`src/src/models/ridge_autoreg.py`): one model per target column, skipping
(silently) every target whose lag-feature frame retains fewer than 20 rows.
The registry is an ordered association list, like the Python insertion-order
dict. -/
def trainPerTargetRidge (labels : Table) (lags : List ℕ) (alpha : ℚ) :
    List (String × RidgeAutoRegModel) :=
  labels.cols.filterMap (fun t =>
    let rows := buildLag (seriesOf labels t) lags
    if rows.length < 20 then none
    else
      let fit := ridgeFit alpha lags.length (rows.map (fun r => r.2.1))
        (rows.map (fun r => r.2.2))
      some (t, ⟨t, lags, fit.1, fit.2⟩))

/-- A pandas `Series` of target values for one lag on one date: ordered
association list from target name to (possibly NaN) value. -/
def LagSeries : Type := List (String × Option ℚ)

/-- The per-target, per-lag value dictionary built inside `predict_wide`: an
entry for lag `l` exists exactly when the lag's series is available, contains
the target in its index, and the value is not NaN. -/
def buildVals (lags : List ℕ) (t : String) (byLag : List (ℕ × LagSeries)) :
    List (ℕ × ℚ) :=
  lags.filterMap (fun l =>
    match byLag.lookup l with
    | some ser =>
      match ser.lookup t with
      | some (some v) => some (l, v)
      | _ => none
    | none => none)

/-- Embedding of `predict_wide` (`src/src/models/ridge_autoreg.py`): one
prediction per registry target, in registry order, each computed by
`predict_row` from the per-lag values found for that target. -/
def predictWide (models : List (String × RidgeAutoRegModel))
    (byLag : List (ℕ × LagSeries)) : List (String × ℚ) :=
  models.map (fun tm => (tm.1, predictRow tm.2 (buildVals tm.2.lags tm.1 byLag)))

/-- One on-disk lag snapshot table `test_labels_lag_{k}.csv`: the `date_id`
key of each row is held separately; `header` lists the remaining columns
(possibly including the `label_date_id` metadata column), and each row's
values parallel `header`. -/
structure LagTable where
  header : List String
  rows : List (ℤ × List (Option ℚ))

/-- The lag directory: `none` for a lag whose snapshot file does not exist. -/
def LagDir : Type := ℕ → Option LagTable

/-- Embedding of `_load_lag_series_for_date`
(`src/src/infer_ridge_autoreg.py`): for each lag in `[1,2,3,4]`, skip a
missing file, skip a file without a row for the date, otherwise take the
first matching row, drop the `label_date_id` metadata column, and keep the
target-name-indexed series. -/
def loadLagSeriesForDate (files : LagDir) (d : ℤ) : List (ℕ × LagSeries) :=
  [1, 2, 3, 4].filterMap (fun l =>
    (files l).bind (fun tbl =>
      (tbl.rows.find? (fun r => r.1 = d)).map (fun r =>
        (l, (tbl.header.zip r.2).filter (fun cv => cv.1 ≠ "label_date_id")))))

/-- Embedding of the per-date loop of `main`
(`src/src/infer_ridge_autoreg.py`): one submission row per requested date,
each row being the date id together with the `predict_wide` output. -/
def inferRows (models : List (String × RidgeAutoRegModel)) (files : LagDir)
    (dateIds : List ℤ) : List (ℤ × List (String × ℚ)) :=
  dateIds.map (fun d => (d, predictWide models (loadLagSeriesForDate files d)))

/-- Serialized form of one registry entry: the flattened fields of
`RidgeAutoRegModel` under its registry key. -/
def SerializedModel : Type := String × String × List ℕ × List ℚ × ℚ

/-- Modelled from the spec: `pd.to_pickle` applied to the model registry
(pickle is library code, not part of this repository; the spec requires "an
opaque serialized blob representing the mapping target_name → TrainedModel").
Serialization flattens every entry to its fields. -/
def saveModels (r : List (String × RidgeAutoRegModel)) : List SerializedModel :=
  r.map (fun tm => (tm.1, tm.2.target, tm.2.lags, tm.2.coef, tm.2.intercept))

/-- Modelled from the spec: `pd.read_pickle` recovering the model registry
from its serialized form. -/
def loadModels (blob : List SerializedModel) : List (String × RidgeAutoRegModel) :=
  blob.map (fun e => (e.1, ⟨e.2.1, e.2.2.1, e.2.2.2.1, e.2.2.2.2⟩))

/-- Spec-words definition for claim C3 (it follows the specification
sentence, not the source): the value of the series at DateId `d`, found by
key lookup rather than by position. -/
def valueAtDate (s : List (ℤ × Option ℚ)) (d : ℤ) : Option ℚ :=
  (s.lookup d).join

/-- Spec-words definition for claim C3: the lag-feature frame built by
shifting in the DateId key domain — the feature of lag `l` for the row dated
`d` is the series value at DateId `d - l`; rows with a missing feature or
label are discarded. -/
def dateShiftBuild (s : List (ℤ × Option ℚ)) (lags : List ℕ) :
    List (ℤ × List ℚ × ℚ) :=
  s.filterMap (fun dv =>
    match dv with
    | (d, some y) =>
      (allSome (lags.map (fun (l : ℕ) => valueAtDate s (d - (l : ℤ))))).map
        (fun fs => (d, fs, y))
    | (_, none) => none)

/-- Spec-words definition for claim C6: "the agreed full column set (the
union of target names derived from the lag snapshot tables)" — every header
name of an existing configured lag table except the metadata column. -/
def specFullColumnSet (files : LagDir) : List String :=
  ([1, 2, 3, 4].flatMap (fun l =>
    match files l with
    | some tbl => tbl.header
    | none => [])).filter (fun c => c ≠ "label_date_id")

/-- Claim C3 as stated: the lag-feature builder realizes the DateId-domain
shift, for every series and lag set, gaps included. -/
def claimC3 (s : List (ℤ × Option ℚ)) (lags : List ℕ) : Prop :=
  buildLag s lags = dateShiftBuild s lags

/-- Claim C6 as stated: every submission row carries every target of the
full lag-derived column set, defaulting to 0.0 for targets outside the model
registry. -/
def claimC6 (models : List (String × RidgeAutoRegModel)) (files : LagDir)
    (dateIds : List ℤ) : Prop :=
  ∀ r ∈ inferRows models files dateIds, ∀ tgt ∈ specFullColumnSet files,
    (r.2.lookup tgt).isSome ∧
      (models.lookup tgt = none → r.2.lookup tgt = some 0)

/-- The per-slot value description of claim C1: the looked-up
`(lag, target_name)` value of the two-level lookup when it is present and
numeric, `none` otherwise. -/
def slotOpt (byLag : List (ℕ × LagSeries)) (t : String) (l : ℕ) : Option ℚ :=
  match byLag.lookup l with
  | some ser =>
    match ser.lookup t with
    | some (some v) => some v
    | _ => none
  | none => none

/-- The model that `train_per_target_ridge` stores for a (retained) target:
the target name, the lag list, and the fitted coefficients. -/
def trainedModel (labels : Table) (lags : List ℕ) (alpha : ℚ) (t : String) :
    RidgeAutoRegModel :=
  let rows := buildLag (seriesOf labels t) lags
  let fit := ridgeFit alpha lags.length (rows.map (fun r => r.2.1))
    (rows.map (fun r => r.2.2))
  ⟨t, lags, fit.1, fit.2⟩

/-- The per-target training gate: `none` exactly when the lag-feature frame
retains fewer than 20 rows (the silent skip), otherwise the trained model. -/
def trainGate (labels : Table) (lags : List ℕ) (alpha : ℚ) (c : String) :
    Option RidgeAutoRegModel :=
  if (buildLag (seriesOf labels c) lags).length < 20 then none
  else some (trainedModel labels lags alpha c)

/-- Example model with lags `[1, 2]`, coefficients `[1, 1]`, intercept 0. -/
def exModelA : RidgeAutoRegModel := ⟨"a", [1, 2], [1, 1], 0⟩

/-- Example model with single lag `[1]`, coefficient `[1]`, intercept 0. -/
def exModelB : RidgeAutoRegModel := ⟨"a", [1], [1], 0⟩

/-- Example registry holding only `exModelA` under target "a". -/
def exReg1 : List (String × RidgeAutoRegModel) := [("a", exModelA)]

/-- Example per-lag lookup: lag 1 carries `a = 5`, lag 2 is entirely
absent — the concrete scenario of the spec. -/
def exByLag1 : List (ℕ × LagSeries) := [(1, [("a", some 5)])]

/-- Example training table: 25 consecutive dates, one target column "a"
whose value at date `d` is `d`. -/
def exLabels : Table :=
  ⟨(List.range 25).map (fun i => (i : ℤ)), ["a"],
    fun d _ => if 0 ≤ d ∧ d < 25 then some (d : ℚ) else none⟩

/-- Example lag directory for C6: only the lag-1 snapshot exists; it reports
targets "a" and "b" for date 5. -/
def exFiles6 : LagDir := fun l =>
  if l = 1 then some ⟨["a", "b"], [(5, [some 1, some 2])]⟩ else none

/-- Example registry for C6: only target "a" was trainable. -/
def exReg6 : List (String × RidgeAutoRegModel) := [("a", exModelB)]

/-- Example lag directory for C9: only the lag-1 snapshot exists and it only
contains date 3. -/
def exFiles9 : LagDir := fun l =>
  if l = 1 then some ⟨["a"], [(3, [some 1])]⟩ else none

/-- Example gapped series for C3: DateIds 0, 1, 5 (a gap between 1 and 5). -/
def exGapSeries : List (ℤ × Option ℚ) :=
  [(0, some 10), (1, some 20), (5, some 30)]

/-- Example consecutive series for C3's amended claim: DateIds 10..15. -/
def exConsSeries : List (ℤ × Option ℚ) :=
  [(10, some 1), (11, some 2), (12, none), (13, some 4), (14, some 5), (15, some 6)]

/-- Ground-truth table of the concrete scenario of the spec:
`{d1: [1,2,3], d2: [3,2,1]}` over three targets. -/
def exTrue : Table :=
  ⟨[1, 2], ["a", "b", "c"], fun d c =>
    if d = 1 then
      if c = "a" then some 1 else if c = "b" then some 2
      else if c = "c" then some 3 else none
    else if d = 2 then
      if c = "a" then some 3 else if c = "b" then some 2
      else if c = "c" then some 1 else none
    else none⟩

/-- A one-date table whose single row is constant (rank vector constant, so
its Spearman correlation against anything is NaN). -/
def exT10 : Table :=
  ⟨[7], ["a", "b", "c"], fun d c =>
    if d = 7 then
      if c = "a" then some 5 else if c = "b" then some 5
      else if c = "c" then some 5 else none
    else none⟩

/-- A one-date prediction table with three distinct finite values. -/
def exP10 : Table :=
  ⟨[7], ["a", "b", "c"], fun d c =>
    if d = 7 then
      if c = "a" then some 1 else if c = "b" then some 2
      else if c = "c" then some 3 else none
    else none⟩

/-!
## Helper lemmas
-/

theorem lookup_keyed_filterMap {α β : Type} [BEq α] [LawfulBEq α]
    (cols : List α) (h : α → Option β) (t : α) :
    (cols.filterMap (fun c => (h c).map (fun b => (c, b)))).lookup t
      = if t ∈ cols then h t else none := by
  induction cols with
  | nil => simp
  | cons c rest ih =>
    cases hc : h c with
    | none =>
      simp only [List.filterMap_cons, hc, Option.map_none']
      rw [ih]
      by_cases htc : t = c
      · subst htc
        by_cases hr : t ∈ rest
        · simp [hr]
        · simp [hr, hc]
      · simp [List.mem_cons, htc]
    | some b =>
      simp only [List.filterMap_cons, hc, Option.map_some']
      rw [List.lookup_cons]
      by_cases htc : t = c
      · subst htc
        simp [hc]
      · have hbeq : (t == c) = false := by simp [htc]
        simp only [hbeq]
        rw [ih]
        simp [List.mem_cons, htc]

theorem lookup_map_val {β γ : Type} (models : List (String × β))
    (f : String → β → γ) (t : String) :
    (models.map (fun tm => (tm.1, f tm.1 tm.2))).lookup t
      = (models.lookup t).map (f t) := by
  induction models with
  | nil => simp
  | cons a rest ih =>
    obtain ⟨k, v⟩ := a
    rw [List.map_cons, List.lookup_cons, List.lookup_cons]
    cases hk : (t == k) with
    | true =>
      have : t = k := by simpa using hk
      subst this
      simp
    | false => simpa using ih

theorem filterMap_length_filter {α β : Type} (f : α → Option β) (l : List α)
    (p : α → Bool) (hp : ∀ a, (f a).isSome = p a) :
    (l.filterMap f).length = (l.filter p).length := by
  induction l with
  | nil => simp
  | cons a rest ih =>
    have ha := hp a
    cases hfa : f a with
    | none =>
      rw [hfa] at ha
      simp only [List.filterMap_cons, hfa, List.filter_cons, ← ha]
      simpa using ih
    | some b =>
      rw [hfa] at ha
      simp only [List.filterMap_cons, hfa, List.filter_cons, ← ha]
      simpa using ih

theorem somes_map_some {α : Type} (l : List α) : somes (l.map some) = l := by
  simp [somes, List.filterMap_map]

theorem nanstd_some_mean (xs : List (Option ℝ)) (s : ℝ)
    (h : nanstdO xs = some s) : ∃ m, nanmeanO xs = some m := by
  unfold nanstdO at h
  unfold nanmeanO
  by_cases hlen : (somes xs).length ≤ 1
  · simp [hlen] at h
  · have hne : ¬ (somes xs).length = 0 := by omega
    simp only [hne, if_false]
    exact ⟨_, rfl⟩

theorem dailyVals_length (t p : Table) :
    (dailyVals t p).length =
      ((commonIndex t p).filter
        (fun d => 3 ≤ (maskedPair t p d (commonCols t p)).1.length)).length := by
  unfold dailyVals dailyReps
  rw [List.length_map]
  apply filterMap_length_filter
  intro d
  unfold dailyEntry
  by_cases h : 3 ≤ (maskedPair t p d (commonCols t p)).1.length
  · simp [h]
  · simp [h]

theorem buildVals_eq_filterMap (lags : List ℕ) (t : String)
    (byLag : List (ℕ × LagSeries)) :
    buildVals lags t byLag =
      lags.filterMap (fun l => (slotOpt byLag t l).map (fun v => (l, v))) := by
  unfold buildVals slotOpt
  congr 1
  funext l
  cases hb : byLag.lookup l with
  | none => rfl
  | some ser =>
    cases hs : ser.lookup t with
    | none => simp [hs]
    | some ov =>
      cases ov with
      | none => simp [hs]
      | some v => simp [hs]

theorem lookup_buildVals (lags : List ℕ) (t : String)
    (byLag : List (ℕ × LagSeries)) (l : ℕ) :
    (buildVals lags t byLag).lookup l =
      if l ∈ lags then slotOpt byLag t l else none := by
  rw [buildVals_eq_filterMap]
  exact lookup_keyed_filterMap lags (slotOpt byLag t) l

theorem trainPerTargetRidge_eq (labels : Table) (lags : List ℕ) (alpha : ℚ) :
    trainPerTargetRidge labels lags alpha =
      labels.cols.filterMap (fun c =>
        (trainGate labels lags alpha c).map (fun b => (c, b))) := by
  unfold trainPerTargetRidge trainGate trainedModel
  congr 1
  funext c
  by_cases h : (buildLag (seriesOf labels c) lags).length < 20
  · simp [h]
  · simp [h]

theorem lookup_consec_lt :
    ∀ (s : List (ℤ × Option ℚ)) (d0 : ℤ),
      (∀ i, i < s.length → (s.getD i (0, none)).1 = d0 + i) →
      ∀ d : ℤ, d < d0 → s.lookup d = none := by
  intro s
  induction s with
  | nil =>
    intro d0 _ d _
    simp
  | cons a rest ih =>
    intro d0 hcons d hd
    obtain ⟨da, va⟩ := a
    have ha : da = d0 := by
      have h0 := hcons 0 (by simp)
      simpa using h0
    have hrest : ∀ i, i < rest.length → (rest.getD i (0, none)).1 = (d0 + 1) + i := by
      intro i hi
      have h := hcons (i + 1) (by simpa using Nat.succ_lt_succ hi)
      rw [List.getD_cons_succ] at h
      push_cast at h ⊢
      omega
    rw [List.lookup_cons]
    have hne : (d == da) = false := by
      rw [ha]
      simp only [beq_eq_false_iff_ne, ne_eq]
      omega
    simp only [hne]
    exact ih (d0 + 1) hrest d (by omega)

theorem lookup_consec_get :
    ∀ (s : List (ℤ × Option ℚ)) (d0 : ℤ),
      (∀ i, i < s.length → (s.getD i (0, none)).1 = d0 + i) →
      ∀ k : ℕ, k < s.length →
        s.lookup (d0 + (k : ℤ)) = some ((s.getD k (0, none)).2) := by
  intro s
  induction s with
  | nil =>
    intro d0 _ k hk
    simp at hk
  | cons a rest ih =>
    intro d0 hcons k hk
    obtain ⟨da, va⟩ := a
    have ha : da = d0 := by
      have h0 := hcons 0 (by simp)
      simpa using h0
    have hrest : ∀ i, i < rest.length → (rest.getD i (0, none)).1 = (d0 + 1) + i := by
      intro i hi
      have h := hcons (i + 1) (by simpa using Nat.succ_lt_succ hi)
      rw [List.getD_cons_succ] at h
      push_cast at h ⊢
      omega
    cases k with
    | zero =>
      rw [List.lookup_cons]
      have heq : ((d0 + ((0 : ℕ) : ℤ)) == da) = true := by
        rw [ha]
        simp
      simp only [heq]
      rw [List.getD_cons_zero]
    | succ k =>
      rw [List.lookup_cons]
      have hne : ((d0 + ((k + 1 : ℕ) : ℤ)) == da) = false := by
        rw [ha]
        simp only [beq_eq_false_iff_ne, ne_eq]
        push_cast
        omega
      simp only [hne]
      rw [List.getD_cons_succ]
      have hk' : k < rest.length := by
        simpa using Nat.lt_of_succ_lt_succ hk
      have h := ih (d0 + 1) hrest k hk'
      rw [show d0 + ((k + 1 : ℕ) : ℤ) = (d0 + 1) + (k : ℤ) by push_cast; ring]
      exact h

theorem valueAtDate_consec (s : List (ℤ × Option ℚ)) (d0 : ℤ)
    (hcons : ∀ i, i < s.length → (s.getD i (0, none)).1 = d0 + i)
    (i : ℕ) (hi : i < s.length) (l : ℕ) :
    valueAtDate s ((d0 + (i : ℤ)) - (l : ℤ)) =
      if l ≤ i then (s.map Prod.snd).getD (i - l) none else none := by
  by_cases hle : l ≤ i
  · rw [if_pos hle]
    have heq : d0 + (i : ℤ) - (l : ℤ) = d0 + ((i - l : ℕ) : ℤ) := by
      push_cast [hle]
      ring
    rw [heq]
    unfold valueAtDate
    rw [lookup_consec_get s d0 hcons (i - l) (by omega)]
    have hmap : (s.map Prod.snd).getD (i - l) none = (s.getD (i - l) (0, none)).2 := by
      have hil : i - l < s.length := by omega
      rw [List.getD_eq_getElem?_getD, List.getD_eq_getElem?_getD, List.getElem?_map,
        List.getElem?_eq_getElem hil]
      simp
    rw [hmap]
    rfl
  · rw [if_neg hle]
    unfold valueAtDate
    rw [lookup_consec_lt s d0 hcons _ (by omega)]
    rfl

theorem range_map_getD {α : Type} :
    ∀ (s : List α) (dflt : α),
      (List.range s.length).map (fun i => s.getD i dflt) = s := by
  intro s
  induction s with
  | nil =>
    intro dflt
    rfl
  | cons a rest ih =>
    intro dflt
    rw [List.length_cons, List.range_succ_eq_map, List.map_cons, List.map_map]
    have hcomp : ((fun i => (a :: rest).getD i dflt) ∘ Nat.succ) =
        (fun i => rest.getD i dflt) := by
      funext i
      simp [List.getD_cons_succ]
    rw [List.getD_cons_zero, hcomp, ih]

theorem buildLagRow_some (s : List (ℤ × Option ℚ)) (lags : List ℕ) (i : ℕ)
    (b : ℤ × List ℚ × ℚ) (hb : buildLagRow s lags i = some b) :
    i < s.length ∧ b.1 = (s.getD i (0, none)).1 := by
  by_cases hi : i < s.length
  · refine ⟨hi, ?_⟩
    unfold buildLagRow at hb
    rcases hget : s.getD i (0, none) with ⟨d, ov⟩
    rw [hget] at hb
    cases ov with
    | none => simp at hb
    | some y =>
      rw [Option.map_eq_some'] at hb
      obtain ⟨fs, _, hbe⟩ := hb
      rw [← hbe]
  · exfalso
    unfold buildLagRow at hb
    rw [List.getD_eq_default _ _ (by omega)] at hb
    simp at hb

/-!
## Claim theorems
-/

/-- C2: `daily_spearman_sharpe` returns the not-a-number sentinel (here
`none`), and never raises (the embedding is a total function), in exactly
these degenerate cases: empty DateId-index or target-column intersection;
fewer than 2 dates produce a per-date correlation value (a date producing a
value exactly when at least 3 positions are finite on both sides); or the
sample standard deviation (ddof 1, NaN-aware) of the per-date correlations is
non-finite (`none`) or zero.  Otherwise the result is mean divided by
standard deviation of the per-date correlations. -/
theorem metric_nan_iff (t p : Table) :
    (dailySpearmanSharpe t p = none ↔
      commonIndex t p = [] ∨ commonCols t p = [] ∨
      ((commonIndex t p).filter
        (fun d => 3 ≤ (maskedPair t p d (commonCols t p)).1.length)).length < 2 ∨
      nanstdO (dailyVals t p) = none ∨ nanstdO (dailyVals t p) = some 0) ∧
    (dailySpearmanSharpe t p = none ∨
      ∃ m s, nanmeanO (dailyVals t p) = some m ∧
        nanstdO (dailyVals t p) = some s ∧
        dailySpearmanSharpe t p = some (m / s)) := by
  have hlen := dailyVals_length t p
  by_cases h1 : commonIndex t p = [] ∨ commonCols t p = []
  · constructor
    · simp only [dailySpearmanSharpe, h1, if_true, true_iff]
      tauto
    · left
      simp [dailySpearmanSharpe, h1]
  · by_cases h2 : (dailyVals t p).length < 2
    · have h2' :
        ((commonIndex t p).filter
          (fun d => 3 ≤ (maskedPair t p d (commonCols t p)).1.length)).length < 2 := by
        omega
      constructor
      · simp [dailySpearmanSharpe, h1, h2, h2']
      · left
        simp [dailySpearmanSharpe, h1, h2]
    · have h2' :
        ¬ ((commonIndex t p).filter
          (fun d => 3 ≤ (maskedPair t p d (commonCols t p)).1.length)).length < 2 := by
        omega
      cases hs : nanstdO (dailyVals t p) with
      | none =>
        constructor
        · simp [dailySpearmanSharpe, h1, h2, hs]
        · left
          simp [dailySpearmanSharpe, h1, h2, hs]
      | some s =>
        by_cases hs0 : s = 0
        · subst hs0
          constructor
          · simp [dailySpearmanSharpe, h1, h2, hs]
          · left
            simp [dailySpearmanSharpe, h1, h2, hs]
        · obtain ⟨m, hm⟩ := nanstd_some_mean _ _ hs
          have hval : dailySpearmanSharpe t p = some (m / s) := by
            simp [dailySpearmanSharpe, h1, h2, hs, hs0, hm]
          constructor
          · rw [hval]
            constructor
            · intro hcon
              simp at hcon
            · intro hcon
              exfalso
              rcases hcon with hc | hc | hc | hc | hc
              · exact h1 (Or.inl hc)
              · exact h1 (Or.inr hc)
              · omega
              · simp at hc
              · exact hs0 (by simpa using hc)
          · right
            exact ⟨m, s, hm, rfl, hval⟩

/-- C10: a date whose masked pair has at least 3 finite pairs but an
undefined (NaN) Spearman correlation still contributes an entry to
`daily_values` (so `daily_values` has one entry per date with at least 3
finite pairs, NaN entries included, and such dates count toward the
at-least-2-dates requirement), while the mean and sample standard deviation
are the NaN-ignoring aggregates over the non-NaN entries. -/
theorem metric_nan_corr_still_counted (t p : Table) (d : ℤ)
    (h3 : 3 ≤ (maskedPair t p d (commonCols t p)).1.length)
    (hnan : spearmanRep (maskedPair t p d (commonCols t p)).1
      (maskedPair t p d (commonCols t p)).2 = none) :
    dailyEntry t p (commonCols t p) d = some none ∧
    (dailyReps t p).length =
      ((commonIndex t p).filter
        (fun x => 3 ≤ (maskedPair t p x (commonCols t p)).1.length)).length ∧
    nanmeanO (dailyVals t p) = nanmeanO ((somes (dailyVals t p)).map some) ∧
    nanstdO (dailyVals t p) = nanstdO ((somes (dailyVals t p)).map some) := by
  refine ⟨?_, ?_, ?_, ?_⟩
  · unfold dailyEntry
    rw [if_pos h3, hnan]
  · have h := dailyVals_length t p
    unfold dailyVals at h
    rw [List.length_map] at h
    exact h
  · simp only [nanmeanO, somes_map_some]
  · simp only [nanstdO, somes_map_some]

/-- Witness for C10 at a concrete input: one common date (7) whose true row
is constant `[5,5,5]` and whose prediction row is `[1,2,3]`. -/
theorem metric_nan_corr_still_counted_witness :
    (3 ≤ (maskedPair exT10 exP10 7 (commonCols exT10 exP10)).1.length) ∧
    (spearmanRep (maskedPair exT10 exP10 7 (commonCols exT10 exP10)).1
      (maskedPair exT10 exP10 7 (commonCols exT10 exP10)).2 = none) ∧
    (dailyEntry exT10 exP10 (commonCols exT10 exP10) 7 = some none ∧
      (dailyReps exT10 exP10).length =
        ((commonIndex exT10 exP10).filter
          (fun x => 3 ≤ (maskedPair exT10 exP10 x (commonCols exT10 exP10)).1.length)).length ∧
      nanmeanO (dailyVals exT10 exP10) =
        nanmeanO ((somes (dailyVals exT10 exP10)).map some) ∧
      nanstdO (dailyVals exT10 exP10) =
        nanstdO ((somes (dailyVals exT10 exP10)).map some)) := by
  have hmp : maskedPair exT10 exP10 7 (commonCols exT10 exP10) =
      ([5, 5, 5], [1, 2, 3]) := by decide
  have hnan : spearmanRep (maskedPair exT10 exP10 7 (commonCols exT10 exP10)).1
      (maskedPair exT10 exP10 7 (commonCols exT10 exP10)).2 = none := by
    rw [hmp]
    norm_num [spearmanRep, midranks, midrank, qmean, dotQ]
  exact ⟨by decide, hnan,
    metric_nan_corr_still_counted exT10 exP10 7 (by decide) hnan⟩

/-- C5: on the concrete identical tables `{d1: [1,2,3], d2: [3,2,1]}`, every
per-date Spearman correlation is exactly 1, the NaN-aware mean is 1, the
sample standard deviation is 0, and the metric returns the sentinel. -/
theorem metric_identical_tables_sentinel :
    dailyReps exTrue exTrue = [some (2, 4), some (2, 4)] ∧
    dailyVals exTrue exTrue = [some 1, some 1] ∧
    nanmeanO (dailyVals exTrue exTrue) = some 1 ∧
    nanstdO (dailyVals exTrue exTrue) = some 0 ∧
    dailySpearmanSharpe exTrue exTrue = none := by
  have hci : commonIndex exTrue exTrue = [1, 2] := by decide
  have hcc : commonCols exTrue exTrue = ["a", "b", "c"] := by decide
  have hm1 : maskedPair exTrue exTrue 1 ["a", "b", "c"] = ([1, 2, 3], [1, 2, 3]) := by
    decide
  have hm2 : maskedPair exTrue exTrue 2 ["a", "b", "c"] = ([3, 2, 1], [3, 2, 1]) := by
    decide
  have hs1 : spearmanRep [(1 : ℚ), 2, 3] [1, 2, 3] = some (2, 4) := by
    norm_num [spearmanRep, midranks, midrank, qmean, dotQ]
  have hs2 : spearmanRep [(3 : ℚ), 2, 1] [3, 2, 1] = some (2, 4) := by
    norm_num [spearmanRep, midranks, midrank, qmean, dotQ]
  have h1 : dailyReps exTrue exTrue = [some (2, 4), some (2, 4)] := by
    unfold dailyReps
    rw [hci, hcc]
    simp [dailyEntry, List.filterMap, hm1, hm2, hs1, hs2]
  have hval : repVal (2, 4) = 1 := by
    unfold repVal
    have h4 : ((4 : ℚ) : ℝ) = (2 : ℝ) ^ 2 := by norm_num
    rw [h4, Real.sqrt_sq (by norm_num : (0 : ℝ) ≤ 2)]
    norm_num
  have h2 : dailyVals exTrue exTrue = [some 1, some 1] := by
    unfold dailyVals
    rw [h1]
    simp [hval]
  have h3 : nanmeanO (dailyVals exTrue exTrue) = some 1 := by
    rw [h2]
    norm_num [nanmeanO, somes, List.filterMap_cons, List.filterMap_nil]
  have h4 : nanstdO (dailyVals exTrue exTrue) = some 0 := by
    rw [h2]
    norm_num [nanstdO, somes, List.filterMap_cons, List.filterMap_nil,
      Real.sqrt_eq_zero']
  refine ⟨h1, h2, h3, h4, ?_⟩
  have hidx : ¬ (commonIndex exTrue exTrue = [] ∨ commonCols exTrue exTrue = []) := by
    decide
  have hlen : ¬ (dailyVals exTrue exTrue).length < 2 := by
    rw [h2]
    simp
  simp [dailySpearmanSharpe, hidx, hlen, h4]

/-- C1: for every target present in the model registry, the feature vector
passed to that target's model has one slot per configured lag, in lag-list
order, each slot holding the looked-up `(lag, target_name)` value when it is
present and numeric and exactly 0.0 otherwise; the registry entry's
prediction is the model applied to exactly that vector, and a lag entirely
absent from the lookup contributes exactly 0.0 to every slot requiring it. -/
theorem predict_feature_slots (models : List (String × RidgeAutoRegModel))
    (byLag : List (ℕ × LagSeries)) (t : String) (m : RidgeAutoRegModel)
    (hm : models.lookup t = some m) :
    featureVec m (buildVals m.lags t byLag) =
      m.lags.map (fun l => (slotOpt byLag t l).getD 0) ∧
    (predictWide models byLag).lookup t =
      some (linPredict m (m.lags.map (fun l => (slotOpt byLag t l).getD 0))) ∧
    ∀ l ∈ m.lags, byLag.lookup l = none → (slotOpt byLag t l).getD 0 = 0 := by
  have hfeat : featureVec m (buildVals m.lags t byLag) =
      m.lags.map (fun l => (slotOpt byLag t l).getD 0) := by
    unfold featureVec
    apply List.map_congr_left
    intro l hl
    rw [lookup_buildVals, if_pos hl]
  refine ⟨hfeat, ?_, ?_⟩
  · unfold predictWide
    rw [lookup_map_val models
      (fun k v => predictRow v (buildVals v.lags k byLag)) t, hm]
    simp [predictRow, hfeat]
  · intro l _ hnone
    unfold slotOpt
    rw [hnone]
    rfl

/-- Witness for C1: registry entry "a" with lags `[1, 2]`, lag 1 present
with value 5, lag 2 entirely absent. -/
theorem predict_feature_slots_witness :
    (exReg1.lookup "a" = some exModelA) ∧
    (featureVec exModelA (buildVals exModelA.lags "a" exByLag1) =
      exModelA.lags.map (fun l => (slotOpt exByLag1 "a" l).getD 0) ∧
    (predictWide exReg1 exByLag1).lookup "a" =
      some (linPredict exModelA
        (exModelA.lags.map (fun l => (slotOpt exByLag1 "a" l).getD 0))) ∧
    ∀ l ∈ exModelA.lags, exByLag1.lookup l = none →
      (slotOpt exByLag1 "a" l).getD 0 = 0) :=
  ⟨by decide, predict_feature_slots exReg1 exByLag1 "a" exModelA (by decide)⟩

/-- C4: the trained registry contains a target of the input table if and
only if that target's lag-feature construction retains at least 20 complete
rows; targets below the threshold are silently omitted (the embedding is
total — no error is raised). -/
theorem train_registry_threshold (labels : Table) (lags : List ℕ) (alpha : ℚ)
    (t : String) (ht : t ∈ labels.cols) :
    ((trainPerTargetRidge labels lags alpha).lookup t ≠ none ↔
      20 ≤ (buildLag (seriesOf labels t) lags).length) := by
  rw [trainPerTargetRidge_eq, lookup_keyed_filterMap, if_pos ht]
  unfold trainGate
  by_cases h : (buildLag (seriesOf labels t) lags).length < 20
  · rw [if_pos h]
    constructor
    · intro hc
      exact absurd rfl hc
    · intro hc
      omega
  · rw [if_neg h]
    constructor
    · intro _
      omega
    · intro _
      exact Option.some_ne_none _

/-- Witness for C4: the 25-row example table with lag list `[1]`. -/
theorem train_registry_threshold_witness :
    ("a" ∈ exLabels.cols) ∧
    ((trainPerTargetRidge exLabels [1] 1).lookup "a" ≠ none ↔
      20 ≤ (buildLag (seriesOf exLabels "a") [1]).length) :=
  ⟨by decide, train_registry_threshold exLabels [1] 1 "a" (by decide)⟩

/-- C7: saving the model registry and loading it back yields the identical
registry, hence identical predictions for every identical per-lag lookup
input (save-then-load round-trip preserves prediction behaviour). -/
theorem registry_roundtrip (r : List (String × RidgeAutoRegModel))
    (byLag : List (ℕ × LagSeries)) :
    loadModels (saveModels r) = r ∧
    predictWide (loadModels (saveModels r)) byLag = predictWide r byLag := by
  have h : loadModels (saveModels r) = r := by
    induction r with
    | nil => rfl
    | cons a rest ih =>
      show (a.1, (⟨a.2.target, a.2.lags, a.2.coef, a.2.intercept⟩ :
        RidgeAutoRegModel)) :: loadModels (saveModels rest) = a :: rest
      rw [ih]
  exact ⟨h, by rw [h]⟩

/-- C8: training is deterministic — two runs of the per-target training
procedure on the same regularization strength, lag set, and input data yield
the same registry, and in particular identical fitted coefficients and
intercepts for every model (the modelled solver has no randomized
initialization). -/
theorem train_deterministic (labels : Table) (lags : List ℕ) (alpha : ℚ)
    (r1 r2 : List (String × RidgeAutoRegModel))
    (h1 : r1 = trainPerTargetRidge labels lags alpha)
    (h2 : r2 = trainPerTargetRidge labels lags alpha) :
    r1 = r2 ∧
    r1.map (fun tm => tm.2.coef) = r2.map (fun tm => tm.2.coef) ∧
    r1.map (fun tm => tm.2.intercept) = r2.map (fun tm => tm.2.intercept) := by
  subst h1
  subst h2
  exact ⟨rfl, rfl, rfl⟩

/-- Witness for C8: two runs on the concrete 25-row training table. -/
theorem train_deterministic_witness :
    trainPerTargetRidge exLabels [1] 1 = trainPerTargetRidge exLabels [1] 1 ∧
    (trainPerTargetRidge exLabels [1] 1).map (fun tm => tm.2.coef) =
      (trainPerTargetRidge exLabels [1] 1).map (fun tm => tm.2.coef) ∧
    (trainPerTargetRidge exLabels [1] 1).map (fun tm => tm.2.intercept) =
      (trainPerTargetRidge exLabels [1] 1).map (fun tm => tm.2.intercept) :=
  train_deterministic exLabels [1] 1 _ _ rfl rfl

/-- C9: for a date absent from every configured lag snapshot table, the
daily lag assembly returns the empty lookup without failing, and prediction
still succeeds, producing one prediction per registry target, each computed
from the all-0.0 feature vector. -/
theorem absent_date_prediction (files : LagDir) (d : ℤ)
    (models : List (String × RidgeAutoRegModel))
    (habs : ∀ l ∈ [(1 : ℕ), 2, 3, 4], ∀ tbl, files l = some tbl →
      ∀ row ∈ tbl.rows, row.1 ≠ d) :
    loadLagSeriesForDate files d = [] ∧
    predictWide models (loadLagSeriesForDate files d) =
      models.map (fun tm =>
        (tm.1, linPredict tm.2 (tm.2.lags.map (fun _ => 0)))) ∧
    (predictWide models (loadLagSeriesForDate files d)).map Prod.fst =
      models.map Prod.fst := by
  have h0 : loadLagSeriesForDate files d = [] := by
    unfold loadLagSeriesForDate
    rw [List.filterMap_eq_nil_iff]
    intro l hl
    cases hf : files l with
    | none => rfl
    | some tbl =>
      have hfind : tbl.rows.find? (fun r => r.1 = d) = none := by
        rw [List.find?_eq_none]
        intro x hx
        simpa using habs l hl tbl hf x hx
      simp [hfind]
  have hbv : ∀ (lags : List ℕ) (t : String),
      buildVals lags t ([] : List (ℕ × LagSeries)) = [] := by
    intro lags t
    rw [buildVals_eq_filterMap, List.filterMap_eq_nil_iff]
    intro l _
    simp [slotOpt]
  have hempty : predictWide models [] =
      models.map (fun tm =>
        (tm.1, linPredict tm.2 (tm.2.lags.map (fun _ => 0)))) := by
    unfold predictWide
    apply List.map_congr_left
    intro tm _
    rw [hbv tm.2.lags tm.1]
    simp [predictRow, featureVec]
  rw [h0]
  refine ⟨rfl, hempty, ?_⟩
  rw [hempty, List.map_map]
  rfl

/-- Witness for C9: date 5, which appears in no lag snapshot (the only
existing snapshot, lag 1, covers only date 3), with the one-model registry. -/
theorem absent_date_prediction_witness :
    (∀ l ∈ [(1 : ℕ), 2, 3, 4], ∀ tbl, exFiles9 l = some tbl →
      ∀ row ∈ tbl.rows, row.1 ≠ (5 : ℤ)) ∧
    (loadLagSeriesForDate exFiles9 5 = [] ∧
      predictWide exReg6 (loadLagSeriesForDate exFiles9 5) =
        exReg6.map (fun tm =>
          (tm.1, linPredict tm.2 (tm.2.lags.map (fun _ => 0)))) ∧
      (predictWide exReg6 (loadLagSeriesForDate exFiles9 5)).map Prod.fst =
        exReg6.map Prod.fst) := by
  have habs : ∀ l ∈ [(1 : ℕ), 2, 3, 4], ∀ tbl, exFiles9 l = some tbl →
      ∀ row ∈ tbl.rows, row.1 ≠ (5 : ℤ) := by
    intro l hl tbl hf row hr
    fin_cases hl
    all_goals simp [exFiles9] at hf
    subst hf
    simp at hr
    subst hr
    decide
  exact ⟨habs, absent_date_prediction exFiles9 5 exReg6 habs⟩

/-- C6 counterexample: with registry `{"a"}` and a lag-1 snapshot deriving
the full column set `{"a", "b"}`, the submission row for date 5 has no
column "b" at all — in particular no 0.0 default — so the claim fails as
stated. -/
theorem submission_full_columns_cex : ¬ claimC6 exReg6 exFiles6 [5] := by
  unfold claimC6
  decide

/-- C6 (amended): each submission row has exactly one column per registry
target, in registry order — the table is rectangular over the registry's
target set — and the row dates are the requested dates in order; targets
outside the registry (even those present in the lag snapshot tables) are
omitted entirely rather than defaulted to 0.0. -/
theorem submission_registry_columns (models : List (String × RidgeAutoRegModel))
    (files : LagDir) (dateIds : List ℤ) :
    (inferRows models files dateIds).map Prod.fst = dateIds ∧
    ∀ r ∈ inferRows models files dateIds,
      r.2.map Prod.fst = models.map Prod.fst := by
  constructor
  · unfold inferRows
    rw [List.map_map]
    exact List.map_id dateIds
  · intro r hr
    unfold inferRows at hr
    rw [List.mem_map] at hr
    obtain ⟨d, _, rfl⟩ := hr
    unfold predictWide
    rw [List.map_map]
    rfl

/-- Witness for C6's amended claim: the one-row inference run of the
counterexample input. -/
theorem submission_registry_columns_witness :
    ((5, predictWide exReg6 (loadLagSeriesForDate exFiles6 5)) ∈
      inferRows exReg6 exFiles6 [5]) ∧
    ((inferRows exReg6 exFiles6 [5]).map Prod.fst = [5] ∧
      (predictWide exReg6 (loadLagSeriesForDate exFiles6 5)).map Prod.fst =
        exReg6.map Prod.fst) := by
  have hmem : (5, predictWide exReg6 (loadLagSeriesForDate exFiles6 5)) ∈
      inferRows exReg6 exFiles6 [5] := by
    unfold inferRows
    simp
  have h := submission_registry_columns exReg6 exFiles6 [5]
  exact ⟨hmem, h.1, h.2 _ hmem⟩

theorem filterMap_eq_filterMap_range {α β : Type} (s : List α) (dflt : α)
    (g : α → Option β) :
    s.filterMap g = (List.range s.length).filterMap (fun i => g (s.getD i dflt)) := by
  conv_lhs => rw [← range_map_getD s dflt]
  rw [List.filterMap_map]
  rfl

/-- C3 counterexample: on the gapped series with DateIds `[0, 1, 5]` and lag
list `[1]`, the builder keeps a row for DateId 5 whose feature is the value
one position earlier (DateId 1), whereas the claimed DateId-domain shift
(`d − l = 4`, missing) would discard that row — so the claim fails as
stated. -/
theorem lag_shift_dateid_cex : ¬ claimC3 exGapSeries [1] := by
  unfold claimC3
  decide

/-- C3 (amended): for each date the lag-`l` feature is the series value `l`
positions earlier in the row order (the pandas positional shift), rows with
any missing feature or missing label are discarded, and retained rows stay
in ascending DateId order; when the DateId sequence is consecutively spaced
(no gaps) this coincides exactly with the claimed DateId-domain shift
`d − l`. -/
theorem buildLag_positional (s : List (ℤ × Option ℚ)) (d0 : ℤ) (lags : List ℕ)
    (hcons : ∀ i, i < s.length → (s.getD i (0, none)).1 = d0 + i) :
    buildLag s lags = dateShiftBuild s lags ∧
    List.Pairwise (· < ·) ((buildLag s lags).map (fun r => r.1)) := by
  have hmain : buildLag s lags = dateShiftBuild s lags := by
    unfold buildLag dateShiftBuild
    rw [filterMap_eq_filterMap_range s ((0 : ℤ), (none : Option ℚ))]
    apply List.filterMap_congr
    intro i hi
    rw [List.mem_range] at hi
    unfold buildLagRow
    rcases hget : s.getD i (0, none) with ⟨d, ov⟩
    have hd : d = d0 + i := by
      have h := hcons i hi
      rw [hget] at h
      simpa using h
    cases ov with
    | none => rfl
    | some y =>
      have hfeat : lags.map (fun (l : ℕ) => valueAtDate s (d - (l : ℤ))) =
          lags.map (fun l =>
            if l ≤ i then (s.map Prod.snd).getD (i - l) none else none) := by
        apply List.map_congr_left
        intro l _
        rw [hd]
        exact valueAtDate_consec s d0 hcons i hi l
      show (allSome (lags.map (fun l =>
          if l ≤ i then (s.map Prod.snd).getD (i - l) none else none))).map
            (fun fs => (d, fs, y)) =
        (allSome (lags.map (fun (l : ℕ) => valueAtDate s (d - (l : ℤ))))).map
          (fun fs => (d, fs, y))
      rw [hfeat]
  have hpw : List.Pairwise (· < ·) ((buildLag s lags).map (fun r => r.1)) := by
    rw [List.pairwise_map]
    unfold buildLag
    refine List.Pairwise.filterMap (buildLagRow s lags) ?_
      (List.pairwise_lt_range s.length)
    intro i j hij b hb b' hb'
    rw [Option.mem_def] at hb hb'
    obtain ⟨hi, hbi⟩ := buildLagRow_some s lags i b hb
    obtain ⟨hj, hbj⟩ := buildLagRow_some s lags j b' hb'
    rw [hbi, hbj, hcons i hi, hcons j hj]
    omega
  exact ⟨hmain, hpw⟩

/-- Witness for C3's amended claim: the consecutive series with DateIds
10..15 (one NaN entry) and lag list `[1, 2]`. -/
theorem buildLag_positional_witness :
    (∀ i, i < exConsSeries.length →
      (exConsSeries.getD i (0, none)).1 = 10 + i) ∧
    (buildLag exConsSeries [1, 2] = dateShiftBuild exConsSeries [1, 2] ∧
      List.Pairwise (· < ·)
        ((buildLag exConsSeries [1, 2]).map (fun r => r.1))) :=
  ⟨by decide, buildLag_positional exConsSeries 10 [1, 2] (by decide)⟩

end CommodityPred
